import Mathlib

/-!
Verification of the go-spring/go-spring-core specification against a shallow
embedding of the repository's source.  Strings are modelled at the character
level; Go panics are modelled as `Except.error`; Go maps whose insertion
behaviour matters are modelled as association lists looked up front-to-back.
-/

namespace GoSpring

/-! ### Character-level models of the Go string primitives used by the source
(`strings.Index`, `strconv.Atoi`, `strings.HasPrefix`, byte slicing). -/

/-- Index of the first `':'` in a character list (`strings.Index(s, ":")`);
`none` plays the role of Go's `-1`. -/
def firstColon : List Char → Option Nat
  | [] => none
  | c :: rest => if c = ':' then some 0 else (firstColon rest).map (· + 1)

/-- Accumulating decimal parser over a digit run; fails on a non-digit. -/
def digitsValAux : Nat → List Char → Option Nat
  | acc, [] => some acc
  | acc, c :: rest =>
    if c.isDigit then digitsValAux (acc * 10 + (c.toNat - 48)) rest else none

/-- Model of `strconv.Atoi`: an optional sign followed by a non-empty run of
decimal digits; anything else is a parse error (`none`). -/
def atoi (s : String) : Option Int :=
  match s.data with
  | [] => none
  | '+' :: rest => if rest.isEmpty then none else (digitsValAux 0 rest).map Int.ofNat
  | '-' :: rest => if rest.isEmpty then none else (digitsValAux 0 rest).map (fun n => -(Int.ofNat n))
  | l => (digitsValAux 0 l).map Int.ofNat

/-- Split a tag at its first colon, as `NewFnStringBindingArg` does with
`strings.Index(tag, ":")`; the colon must exist and must not be the first
character (Go's `index > 0` check). -/
def splitTag (s : String) : Option (String × String) :=
  match firstColon s.data with
  | none => none
  | some 0 => none
  | some k => some (⟨s.data.take k⟩, ⟨s.data.drop (k + 1)⟩)

/-- Parse a tag of the form `"N:payload"`: colon at a positive position and a
numeric prefix accepted by `strconv.Atoi`. -/
def parseTag (s : String) : Option (Int × String) :=
  match splitTag s with
  | none => none
  | some (pre, post) => (atoi pre).map (fun i => (i, post))

/-- A tag counts as index-prefixed exactly when `parseTag` succeeds; this is
the test both loops of `NewFnStringBindingArg` perform. -/
def isIndexedTag (s : String) : Bool := (parseTag s).isSome

/-! ### Configer ordering (`core` package, `src/unnamed/part_001` part one) -/

/-- Configer: a named deferred configuration function with `before`/`after`
ordering hints (only the fields `getBeforeConfigers` reads are modelled). -/
structure Configer where
  name : String
  before : List String
  after : List String
deriving DecidableEq

/-- Model of `getBeforeConfigers`: walk the configer list; for each configer
`c`, push `c` once for every name in `c.before` equal to `current.name`, then
once for every name in `current.after` equal to `c.name`. -/
def getBeforeConfigers : List Configer → Configer → List Configer
  | [], _ => []
  | c :: rest, current =>
    ((c.before.filter (fun n => current.name == n)).map (fun _ => c) ++
      (current.after.filter (fun n => c.name == n)).map (fun _ => c)) ++
      getBeforeConfigers rest current

/-! ### Option-pattern argument binding (`bean` package, `src/unnamed/part_001`) -/

/-- The slice of the `beanAssembly` interface that `OptionArg.call` consumes:
condition matching.  `C` is the condition type, `V` the `reflect.Value` type. -/
structure Assembly (C V : Type) where
  Matches : C → Bool

/-- `OptionArg`: an option function `fn` with its own optional condition and a
string-binding argument list; `argGet` models `arg.arg.Get(assembly, fileLine)`
and `fn` models calling the reflected function on the bound arguments.  -/
structure OptionArg (C V : Type) where
  cond : Option C
  fn : List V → V
  argGet : Assembly C V → List V

/-- Go's `arg.cond == nil || assembly.Matches(arg.cond)` guard. -/
def condPasses {C V : Type} (assembly : Assembly C V) (arg : OptionArg C V) : Bool :=
  match arg.cond with
  | none => true
  | some c => assembly.Matches c

/-- Model of `OptionArg.call`: when the condition is nil or matches, call the
option function with its bound arguments and return its single value with
`ok = true`; otherwise return nothing (`ok = false`, not an error). -/
def OptionArg.call {C V : Type} (arg : OptionArg C V) (assembly : Assembly C V) : Option V :=
  if condPasses assembly arg then some (arg.fn (arg.argGet assembly)) else none

/-- `FnOptionBindingArg`: ordered list of option arguments. -/
structure FnOptionBindingArg (C V : Type) where
  Options : List (OptionArg C V)

/-- Model of `FnOptionBindingArg.Get`: fold over `Options`, appending each
value whose `call` reported `ok`. -/
def FnOptionBindingArg.Get {C V : Type} (arg : FnOptionBindingArg C V)
    (assembly : Assembly C V) : List V :=
  arg.Options.foldl
    (fun result option =>
      match option.call assembly with
      | some v => result ++ [v]
      | none => result)
    []

/-! ### Parameter routing in `fnStringBindingArg.getArgValue` -/

/-- The call `getArgValue` makes on the assembly for one parameter: property
binding (`BindStructField`) or bean wiring (`WireStructField`). -/
inductive BindCall where
  | bindStructField (tag : String)
  | wireStructField (tag : String)
deriving DecidableEq

/-- Model of `fnStringBindingArg.getArgValue`: a value-kind parameter is
property-bound, with an empty tag replaced by `"${}"`; a reference-kind
parameter is wired through the bean assembly with the tag unchanged. -/
def getArgValue (isValueType : Bool) (tag : String) : BindCall :=
  if isValueType then
    BindCall.bindStructField (if tag = "" then "${}" else tag)
  else
    BindCall.wireStructField tag

/-- A registered bean as seen by a wiring lookup: a name and a type. -/
structure BeanEntry where
  name : String
  typ : String
deriving DecidableEq

/-- Modelled from the spec: the bean assembly's `WireStructField` lookup is not
under `src/`; per the spec a reference-kind parameter with an empty tag
"triggers capability-based lookup by declared type with no name filter", and a
non-empty tag additionally filters candidates by bean name. -/
def wireCandidates (registry : List BeanEntry) (declaredTyp : String) (tag : String) :
    List BeanEntry :=
  if tag = "" then registry.filter (fun b => b.typ == declaredTyp)
  else registry.filter (fun b => b.typ == declaredTyp && b.name == tag)

/-! ### Application shutdown (`src/app/app.go`, `Run` / `ShutDown` / `close`) -/

/-- Application lifecycle state: whether `exitChan` has been closed and how
many times the teardown callback sequence of `close()` has run. -/
structure AppRunState where
  exitChanClosed : Bool
  teardownCount : Nat
deriving DecidableEq

/-- Closing a Go channel: panics (`Except.error`) when the channel is already
closed. -/
def closeChannel (s : AppRunState) : Except String AppRunState :=
  if s.exitChanClosed then Except.error "close of closed channel"
  else Except.ok { s with exitChanClosed := true }

/-- Model of `Application.ShutDown`: the `select` receives from `exitChan`
(succeeds exactly when it is already closed, doing nothing) and otherwise
takes the `default` branch, closing the channel. -/
def ShutDown (s : AppRunState) : Except String AppRunState :=
  if s.exitChanClosed then Except.ok s else closeChannel s

/-- Repeated `ShutDown` calls in sequence. -/
def shutDownTimes : Nat → AppRunState → Except String AppRunState
  | 0, s => Except.ok s
  | n + 1, s => (ShutDown s).bind (shutDownTimes n)

/-- Model of `Application.close`: run the teardown callback sequence once. -/
def appClose (s : AppRunState) : AppRunState :=
  { s with teardownCount := s.teardownCount + 1 }

/-- Model of the tail of `Application.Run` after `start()`: block on
`<-app.exitChan` (only passable once the channel is closed, i.e. after at
least one `ShutDown`), then run `app.close()` exactly once. -/
def runAfterStart (shutdownCalls : Nat) (s0 : AppRunState) : Except String AppRunState :=
  (shutDownTimes shutdownCalls s0).bind fun s =>
    if s.exitChanClosed then Except.ok (appClose s) else Except.error "blocked on exitChan"

/-! ### Property flattening and reference resolution (`src/app/app.go`,
`Application.prepare` / `resolveProperty`) -/

/-- A property value: Go's `interface{}` restricted to the cases the resolver
distinguishes — a string (the only case inspected for `"${"`), or any other
value, represented by an integer. -/
inductive PVal where
  | str (s : String)
  | num (n : Int)
deriving DecidableEq

/-- Go's `value.(string)` type-assertion combined with
`strings.HasPrefix(s, "${")`, lifted to values. -/
def isRefVal : PVal → Bool
  | PVal.str s =>
    match s.data with
    | '$' :: '\x7b' :: _ => true
    | _ => false
  | _ => false

/-- `strings.HasPrefix(s, "${")` on the string itself. -/
def strStartsWithRef (s : String) : Bool := isRefVal (PVal.str s)

/-- Go's `refKey := s[2 : len(s)-1]`: drop the two leading characters and the
single trailing character.  Note the code does not parse a `:=` default — the
whole text between the braces is taken verbatim as the referenced key. -/
def refKeyOf (s : String) : String := ⟨(s.data.drop 2).dropLast⟩

/-- First-match association-list lookup, the model of reading a Go map key. -/
def confLookup (conf : List (String × PVal)) (k : String) : Option PVal :=
  (conf.find? (fun p => p.1 == k)).map (·.2)

/-- Association-list update, the model of `conf[key] = value` (the resolver
only ever writes keys that are already present, but appending when absent
matches Go map assignment). -/
def confUpdate : List (String × PVal) → String → PVal → List (String × PVal)
  | [], k, v => [(k, v)]
  | (k0, v0) :: rest, k, v =>
    if k0 = k then (k, v) :: rest else (k0, v0) :: confUpdate rest k v

/-- Errors of the resolution pass: Go's
`panic(fmt.Errorf("property \"%s\" not config", refKey))`, plus an
out-of-fuel marker standing for the unbounded recursion Go would perform on a
reference cycle. -/
inductive ResolveErr where
  | notConfig (key : String)
  | outOfFuel
deriving DecidableEq

/-- Model of `Application.resolveProperty`: if the value is a string starting
with `"${"`, look the referenced key up in the flattened map (panicking when
absent), resolve the referenced value transitively, memoize the result at
`key`, and return it; any other value is returned unchanged. -/
def resolveProperty : Nat → List (String × PVal) → String → PVal →
    Except ResolveErr (PVal × List (String × PVal))
  | 0, _, _, _ => Except.error ResolveErr.outOfFuel
  | fuel + 1, conf, key, value =>
    match value with
    | PVal.str s =>
      if strStartsWithRef s then
        match confLookup conf (refKeyOf s) with
        | none => Except.error (ResolveErr.notConfig (refKeyOf s))
        | some refValue =>
          match resolveProperty fuel conf (refKeyOf s) refValue with
          | Except.error e => Except.error e
          | Except.ok (rv, conf2) => Except.ok (rv, confUpdate conf2 key rv)
      else Except.ok (PVal.str s, conf)
    | v => Except.ok (v, conf)

/-- The final loop of `Application.prepare`: iterate over the flattened
entries, resolve each value against the (mutating) map, and record the
resolved value in the application context's property list. -/
def resolveAll (fuel : Nat) : List (String × PVal) → List (String × PVal) →
    Except ResolveErr (List (String × PVal) × List (String × PVal))
  | conf, [] => Except.ok ([], conf)
  | conf, (k, v) :: rest =>
    match resolveProperty fuel conf k v with
    | Except.error e => Except.error e
    | Except.ok (rv, conf1) =>
      match resolveAll fuel conf1 rest with
      | Except.error e => Except.error e
      | Except.ok (acc, conf2) => Except.ok ((k, rv) :: acc, conf2)

/-- The five configuration layers assembled by `Application.prepare`. -/
inductive CfgLayer where
  | api
  | cmdArgs
  | sysEnv
  | profileCfg
  | appCfg
deriving DecidableEq

/-- Modelled from the spec: `conf.Priority(...).InsertBefore(x, target)` of the
`conf` package (not under `src/`) keeps a priority-ordered layer list, highest
first, and inserts `x` immediately before `target`. -/
def insertBefore (x target : CfgLayer) : List CfgLayer → List CfgLayer
  | [] => []
  | y :: rest => if y = target then x :: y :: rest else y :: insertBefore x target rest

/-- The layer list `Application.prepare` builds, by the source's exact call
sequence: `Priority(apiConfig, appConfig)`, then `InsertBefore(sysEnv,
appConfig)`, `InsertBefore(cmdArgs, sysEnv)`, and — when a profile is active —
`InsertBefore(profileConfig, appConfig)`. -/
def prepareLayers (hasProfile : Bool) : List CfgLayer :=
  let p := [CfgLayer.api, CfgLayer.appCfg]
  let p := insertBefore CfgLayer.sysEnv CfgLayer.appCfg p
  let p := insertBefore CfgLayer.cmdArgs CfgLayer.sysEnv p
  if hasProfile then insertBefore CfgLayer.profileCfg CfgLayer.appCfg p else p

/-- The concrete contents of the five layers. -/
structure AppConfigs where
  api : List (String × PVal)
  cmdArgs : List (String × PVal)
  sysEnv : List (String × PVal)
  profileCfg : List (String × PVal)
  appCfg : List (String × PVal)

/-- The properties of one named layer. -/
def layerProps (cfg : AppConfigs) : CfgLayer → List (String × PVal)
  | CfgLayer.api => cfg.api
  | CfgLayer.cmdArgs => cfg.cmdArgs
  | CfgLayer.sysEnv => cfg.sysEnv
  | CfgLayer.profileCfg => cfg.profileCfg
  | CfgLayer.appCfg => cfg.appCfg

/-- Merge two property maps, the higher-priority one winning on key clashes. -/
def confMerge (high low : List (String × PVal)) : List (String × PVal) :=
  high ++ low.filter (fun p => (confLookup high p.1).isNone)

/-- Modelled from the spec: `p.Fill(properties)` of the `conf` package (not
under `src/`) flattens the layered composition into one map, each key taking
its value from the highest-priority layer that defines it. -/
def fillLayers (cfg : AppConfigs) : List CfgLayer → List (String × PVal)
  | [] => []
  | L :: rest => confMerge (layerProps cfg L) (fillLayers cfg rest)

/-- Model of `Application.prepare`: build the layer list, flatten it, then
resolve every property reference and expose the results on the context. -/
def prepare (cfg : AppConfigs) (hasProfile : Bool) (fuel : Nat) :
    Except ResolveErr (List (String × PVal)) :=
  let props := fillLayers cfg (prepareLayers hasProfile)
  match resolveAll fuel props props with
  | Except.error e => Except.error e
  | Except.ok (exposed, _) => Except.ok exposed

/-- The claim's own priority order, written out directly: the first of
code-set, command-line, environment, profile-file, default-file properties
that defines the key. -/
def layeredFirst (cfg : AppConfigs) (k : String) : Option PVal :=
  match confLookup cfg.api k with
  | some v => some v
  | none =>
    match confLookup cfg.cmdArgs k with
    | some v => some v
    | none =>
      match confLookup cfg.sysEnv k with
      | some v => some v
      | none =>
        match confLookup cfg.profileCfg k with
        | some v => some v
        | none => confLookup cfg.appCfg k

/-! ### Bean registry resolution with parent gating (modelled; the resolver of
the `core` package is not under `src/`, only its tests in `src/app/app.go`) -/

/-- A registered bean definition as far as parent gating is concerned: a name,
an exposed type, an optional condition, and — for method/child beans — the
index of the parent definition in registration order. -/
structure MBeanDef (C : Type) where
  name : String
  typ : String
  cond : Option C
  parentIdx : Option Nat

/-- Condition outcome of one definition under a given evaluation. -/
def condOK {C : Type} (evalCond : C → Bool) (d : MBeanDef C) : Bool :=
  match d.cond with
  | none => true
  | some c => evalCond c

/-- Parent gate: a definition with no parent passes; a child passes only when
its parent has already been decided and survived. -/
def parentOK {C : Type} (decided : List (MBeanDef C × Bool)) (d : MBeanDef C) : Bool :=
  match d.parentIdx with
  | none => true
  | some i =>
    match decided.get? i with
    | some p => p.2
    | none => false

/-- Modelled from the spec: the `AutoWireBeans` resolution pass of the `core`
package (not under `src/`) decides each definition in order — a definition
survives iff its own condition passes and, for a method/child bean, its parent
definition survived; a child whose parent is excluded is excluded
unconditionally, regardless of its own condition. -/
def decideDefsGo {C : Type} (evalCond : C → Bool) :
    List (MBeanDef C × Bool) → List (MBeanDef C) → List (MBeanDef C × Bool)
  | decided, [] => decided
  | decided, d :: rest =>
    decideDefsGo evalCond (decided ++ [(d, condOK evalCond d && parentOK decided d)]) rest

/-- Resolution of a full registration list. -/
def decideDefs {C : Type} (evalCond : C → Bool) (defs : List (MBeanDef C)) :
    List (MBeanDef C × Bool) :=
  decideDefsGo evalCond [] defs

/-- Modelled from the spec: `GetBean` by type (not under `src/`) reports
success iff exactly one surviving bean exposes the requested type. -/
def getBeanFound {C : Type} (resolved : List (MBeanDef C × Bool)) (typ : String) : Bool :=
  resolved.countP (fun p => p.2 && p.1.typ == typ) == 1

/-! ### `NewFnStringBindingArg` (`bean` package, `src/unnamed/part_001`) -/

/-- The errors (`panic`s) `NewFnStringBindingArg` can raise, one constructor
per panic site, each carrying the data Go formats into the message. -/
inductive BindErr where
  | shouldHaveIndex (tag : String)
  | shouldntHaveIndex (tag : String)
  | indexedTagOverflow (tag : String)
  | dupIndex (i : Nat) (n : Nat)
  | sliceOutOfRange
deriving DecidableEq

/-- The Go error message of each panic site. -/
def BindErr.message : BindErr → String
  | BindErr.shouldHaveIndex tag => "tag:\"" ++ tag ++ "\" should have index"
  | BindErr.shouldntHaveIndex tag => "tag \"" ++ tag ++ "\" shouldn't have index"
  | BindErr.indexedTagOverflow tag => "indexed tag \"" ++ tag ++ "\" overflow"
  | BindErr.dupIndex i n => "index " ++ toString i ++ " has " ++ toString n ++ " tags"
  | BindErr.sliceOutOfRange => "runtime error: index out of range"

/-- Shape of a Go function type as `NewFnStringBindingArg` inspects it:
`reflect.Type.NumIn()` and `IsVariadic()`. -/
structure FnType where
  numIn : Nat
  variadic : Bool

/-- `fnTags[i]` with Go's in-range semantics (every read the code performs is
in range; out-of-range reads never occur on the paths modelled). -/
def lget (l : List (List String)) (n : Nat) : List String := l.getD n []

/-- The indexed loop of `NewFnStringBindingArg`: each tag must split at a
colon at a positive position with a numeric prefix (`should have index`
otherwise); the index must lie in `[0, numIn)` (`overflow` otherwise); the
payload is appended at its index, and an index holding more than one tag
panics unless the function is variadic and the index is the final one. -/
def goIndexed (numIn : Nat) (variadic : Bool) :
    List (List String) → List String → Except BindErr (List (List String))
  | acc, [] => Except.ok acc
  | acc, tag :: rest =>
    match parseTag tag with
    | none => Except.error (BindErr.shouldHaveIndex tag)
    | some (i, payload) =>
      if i < 0 ∨ (numIn : Int) ≤ i then Except.error (BindErr.indexedTagOverflow tag)
      else
        if 1 < (lget (acc.set i.toNat (lget acc i.toNat ++ [payload])) i.toNat).length
            ∧ (variadic = false ∨ i.toNat < numIn - 1) then
          Except.error (BindErr.dupIndex i.toNat
            (lget (acc.set i.toNat (lget acc i.toNat ++ [payload])) i.toNat).length)
        else goIndexed numIn variadic (acc.set i.toNat (lget acc i.toNat ++ [payload])) rest

/-- The unindexed loop of `NewFnStringBindingArg`: a tag that does parse as
`"N:payload"` panics (`shouldn't have index`); at or past position `numIn - 1`
of a variadic function the tag is appended to the final parameter's list
(Go would panic on `fnTags[-1]` when `numIn = 0`); otherwise `fnTags[i]` is
overwritten with the single tag, Go panicking on the slice write when
`i ≥ numIn`. -/
def goUnindexed (numIn : Nat) (variadic : Bool) :
    List (List String) → Nat → List String → Except BindErr (List (List String))
  | acc, _, [] => Except.ok acc
  | acc, i, tag :: rest =>
    if isIndexedTag tag then Except.error (BindErr.shouldntHaveIndex tag)
    else if variadic ∧ numIn ≤ i + 1 then
      if numIn = 0 then Except.error BindErr.sliceOutOfRange
      else goUnindexed numIn variadic
        (acc.set (numIn - 1) (lget acc (numIn - 1) ++ [tag])) (i + 1) rest
    else
      if i < numIn then goUnindexed numIn variadic (acc.set i [tag]) (i + 1) rest
      else Except.error BindErr.sliceOutOfRange

/-- Go's detection of an indexed tag list: only the first tag is examined —
non-empty, with a colon at a positive position and a numeric prefix. -/
def detectIndexed : List String → Bool
  | [] => false
  | t :: _ => (!(t == "")) && isIndexedTag t

/-- The number of bindable parameters: `NumIn()`, minus one when the first
parameter is a receiver. -/
def effNumIn (fnType : FnType) (withReceiver : Bool) : Nat :=
  if withReceiver then fnType.numIn - 1 else fnType.numIn

/-- Model of `NewFnStringBindingArg`: build `fnTags` (one slot per bindable
parameter) from the tag list, dispatching on whether the first tag is
index-prefixed. -/
def NewFnStringBindingArg (fnType : FnType) (withReceiver : Bool) (tags : List String) :
    Except BindErr (List (List String)) :=
  let numIn := effNumIn fnType withReceiver
  let fnTags := List.replicate numIn ([] : List String)
  if 0 < tags.length then
    if detectIndexed tags then goIndexed numIn fnType.variadic fnTags tags
    else goUnindexed numIn fnType.variadic fnTags 0 tags
  else Except.ok fnTags

/-- The payloads destined for parameter `j`, in tag order, among the tags that
parse as index-prefixed. -/
def payloadsAt (j : Nat) (tags : List String) : List String :=
  tags.filterMap fun t =>
    match parseTag t with
    | some (i, p) => if i = (j : Int) then some p else none
    | none => none

/-- How many index-prefixed tags target parameter `j`. -/
def countAt (j : Nat) (tags : List String) : Nat := (payloadsAt j tags).length

/-- A tag whose parsed index falls outside `[0, numIn)`. -/
def tagOutOfRange (numIn : Nat) (t : String) : Bool :=
  match parseTag t with
  | none => false
  | some (i, _) => decide (i < 0) || decide ((numIn : Int) ≤ i)

/-- Some parameter index receives two or more tags although the function is
not variadic or the index is not the final parameter. -/
def dupViolation (numIn : Nat) (variadic : Bool) (tags : List String) : Bool :=
  (List.range numIn).any fun j =>
    ((!variadic) || (!(j + 1 == numIn))) && decide (2 ≤ countAt j tags)

/-- Every tag parses as index-prefixed with an index inside `[0, numIn)`. -/
def AllGoodTags (numIn : Nat) (tags : List String) : Prop :=
  ∀ t ∈ tags, ∃ i p, parseTag t = some (i, p) ∧ 0 ≤ i ∧ i < (numIn : Int)

/-- Parameter index `j` may hold at most one tag: the function is not
variadic, or `j` is not the final parameter. -/
def Restricted (numIn : Nat) (variadic : Bool) (j : Nat) : Prop :=
  variadic = false ∨ j < numIn - 1

/-- Every restricted index that receives at least one new tag ends up with at
most one tag overall, counting what `acc` already holds. -/
def CountsFit (numIn : Nat) (variadic : Bool) (acc : List (List String))
    (tags : List String) : Prop :=
  ∀ j : Nat, j < numIn → Restricted numIn variadic j → 1 ≤ countAt j tags →
    (lget acc j).length + countAt j tags ≤ 1

/-! ### `Invoke` (modelled; `core.applicationContext.Invoke` is not under
`src/`, only its tests in `src/unnamed/part_000`) -/

/-- The context state `Invoke` guards on. -/
structure InvokeCtx where
  autoWired : Bool

/-- `Invoke` errors: the explicit ordering guard, or a binder panic. -/
inductive InvokeErr where
  | notAutoWired
  | bindFailed (e : BindErr)
deriving DecidableEq

/-- The message of an `Invoke` failure. -/
def InvokeErr.message : InvokeErr → String
  | InvokeErr.notAutoWired => "should call after AutoWireBeans"
  | InvokeErr.bindFailed e => e.message

/-- Modelled from the spec: `ApplicationContext.Invoke` (not under `src/`)
fails fatally with "should call after AutoWireBeans" when resolution has not
run yet, and otherwise binds the function's parameters with the same argument
binder (`NewFnStringBindingArg`) used for bean constructors. -/
def Invoke (ctx : InvokeCtx) (fnType : FnType) (tags : List String) :
    Except InvokeErr (List (List String)) :=
  if ctx.autoWired = false then Except.error InvokeErr.notAutoWired
  else
    match NewFnStringBindingArg fnType false tags with
    | Except.error e => Except.error (InvokeErr.bindFailed e)
    | Except.ok fnTags => Except.ok fnTags

/-! ## Theorems -/

/-! ### C4 — option-pattern arguments -/

lemma foldl_optionCall_eq {C V : Type} (assembly : Assembly C V) :
    ∀ (opts : List (OptionArg C V)) (acc : List V),
      opts.foldl
        (fun result option =>
          match option.call assembly with
          | some v => result ++ [v]
          | none => result)
        acc
      = acc ++ (opts.filter (condPasses assembly)).map (fun o => o.fn (o.argGet assembly)) := by
  intro opts
  induction opts with
  | nil => intro acc; simp
  | cons o rest ih =>
    intro acc
    cases h : condPasses assembly o with
    | true =>
      have hc : o.call assembly = some (o.fn (o.argGet assembly)) := by
        simp [OptionArg.call, h]
      simp only [List.foldl_cons, hc, ih, List.filter_cons, h, if_true]
      simp [List.append_assoc]
    | false =>
      have hc : o.call assembly = none := by
        simp [OptionArg.call, h]
      simp only [List.foldl_cons, hc, ih, List.filter_cons, h]
      simp

/-- Claim C4: `FnOptionBindingArg.Get` returns, in `Options` order, exactly
the values of the options whose condition is nil or evaluates true against the
assembly — each value obtained by calling the option function on its bound
arguments — and silently omits every option whose condition evaluates false. -/
theorem fnOptionBindingArg_get_conditional_options {C V : Type}
    (arg : FnOptionBindingArg C V) (assembly : Assembly C V) :
    arg.Get assembly
      = (arg.Options.filter (condPasses assembly)).map (fun o => o.fn (o.argGet assembly)) := by
  simpa using foldl_optionCall_eq assembly arg.Options []

/-! ### C5 — parameter routing in `getArgValue` -/

/-- Claim C5: a value-kind parameter with an empty tag is property-bound with
the tag replaced by `"${}"`; a reference-kind parameter with any tag
(including the empty one) is filled by a bean-assembly wiring lookup, and an
empty wiring tag means lookup by declared type with no name filter. -/
theorem getArgValue_routing :
    getArgValue true "" = BindCall.bindStructField "${}"
    ∧ (∀ tag : String, getArgValue false tag = BindCall.wireStructField tag)
    ∧ (∀ (registry : List BeanEntry) (typ : String) (b : BeanEntry),
        b ∈ wireCandidates registry typ "" ↔ b ∈ registry ∧ b.typ = typ) := by
  refine ⟨rfl, fun tag => rfl, fun registry typ b => ?_⟩
  simp [wireCandidates, List.mem_filter]

/-! ### C7 — idempotent shutdown -/

lemma shutDownTimes_closed : ∀ (n : Nat) (s : AppRunState), s.exitChanClosed = true →
    shutDownTimes n s = Except.ok s := by
  intro n
  induction n with
  | zero => intro s _; rfl
  | succ m ih =>
    intro s h
    simp [shutDownTimes, ShutDown, h, Except.bind, ih s h]

/-- Claim C7: `ShutDown` never panics and never double-closes — it always
returns the state with the shutdown channel closed and the teardown counter
untouched — a repeated call is a no-op, and `Run`'s teardown callback
sequence executes exactly once no matter how many times `ShutDown` was
issued. -/
theorem shutDown_idempotent_teardown_once :
    (∀ s : AppRunState, ShutDown s = Except.ok { s with exitChanClosed := true })
    ∧ (∀ s : AppRunState, (ShutDown s).bind ShutDown = ShutDown s)
    ∧ (∀ n : Nat, 1 ≤ n →
        runAfterStart n ⟨false, 0⟩ = Except.ok ⟨true, 1⟩) := by
  have hok : ∀ s : AppRunState, ShutDown s = Except.ok { s with exitChanClosed := true } := by
    intro s
    cases s with
    | mk closed tc => cases closed <;> simp [ShutDown, closeChannel]
  refine ⟨hok, ?_, ?_⟩
  · intro s
    rw [hok s]
    show ShutDown { s with exitChanClosed := true } = Except.ok { s with exitChanClosed := true }
    rw [hok { s with exitChanClosed := true }]
  · intro n hn
    match n, hn with
    | m + 1, _ =>
      have h1 : shutDownTimes (m + 1) ⟨false, 0⟩ = Except.ok ⟨true, 0⟩ := by
        simp [shutDownTimes, ShutDown, closeChannel, Except.bind]
        exact shutDownTimes_closed m ⟨true, 0⟩ rfl
      simp [runAfterStart, h1, Except.bind, appClose]

/-- Witness for C7 at a concrete input: two shutdown requests, one teardown. -/
theorem shutDown_idempotent_witness :
    (1 ≤ 2) ∧ runAfterStart 2 ⟨false, 0⟩ = Except.ok ⟨true, 1⟩ :=
  ⟨by decide, shutDown_idempotent_teardown_once.2.2 2 (by decide)⟩

/-! ### C9 — `getBeforeConfigers` -/

lemma length_filter_beq (a : String) : ∀ l : List String,
    (l.filter (fun n => a == n)).length = l.count a := by
  intro l
  induction l with
  | nil => rfl
  | cons b rest ih =>
    by_cases h : a = b
    · subst h; simp [List.filter_cons, List.count_cons, ih]
    · simp [List.filter_cons, List.count_cons, h, ih, Ne.symm h]

lemma count_map_const {α β : Type} [DecidableEq α] (c d : α) (l : List β) :
    ((l.map fun _ => c).count d) = if c = d then l.length else 0 := by
  have hrep : (l.map fun _ => c) = List.replicate l.length c := by
    induction l with
    | nil => simp
    | cons b rest ih => simp [ih, List.replicate_succ]
  rw [hrep, List.count_replicate]
  by_cases h : c = d <;> simp [h]

lemma getBeforeConfigers_count (current d : Configer) : ∀ configers : List Configer,
    (getBeforeConfigers configers current).count d
      = configers.count d * (d.before.count current.name + current.after.count d.name) := by
  intro configers
  induction configers with
  | nil => simp [getBeforeConfigers]
  | cons c rest ih =>
    show (((c.before.filter (fun n => current.name == n)).map (fun _ => c) ++
        (current.after.filter (fun n => c.name == n)).map (fun _ => c)) ++
        getBeforeConfigers rest current).count d = _
    rw [List.count_append, List.count_append, ih, count_map_const, count_map_const,
      length_filter_beq, length_filter_beq]
    by_cases h : c = d
    · subst h
      simp [List.count_cons]
      ring
    · simp [h, List.count_cons, Ne.symm h]

/-- Claim C9 (amended): `getBeforeConfigers list c` returns exactly the
Configers `d` of the list with `c`'s name in `d`'s `before` list or `d`'s
name in `c`'s `after` list; each occurrence of `d` in the list contributes
one copy per occurrence of `c`'s name in `d.before` plus one copy per
occurrence of `d`'s name in `c.after` (not merely once per satisfied
clause). -/
theorem getBeforeConfigers_predecessors (configers : List Configer) (current d : Configer) :
    (getBeforeConfigers configers current).count d
      = configers.count d * (d.before.count current.name + current.after.count d.name)
    ∧ (d ∈ getBeforeConfigers configers current
        ↔ d ∈ configers ∧ (current.name ∈ d.before ∨ d.name ∈ current.after)) := by
  refine ⟨getBeforeConfigers_count current d configers, ?_⟩
  rw [← List.count_pos_iff, getBeforeConfigers_count current d configers,
    ← List.count_pos_iff (a := d) (l := configers),
    ← List.count_pos_iff (a := current.name) (l := d.before),
    ← List.count_pos_iff (a := d.name) (l := current.after)]
  constructor
  · intro h
    have hmul := h
    rw [Nat.pos_iff_ne_zero, Ne, Nat.mul_eq_zero, not_or] at hmul
    obtain ⟨h1, h2⟩ := hmul
    exact ⟨Nat.pos_of_ne_zero h1, by omega⟩
  · rintro ⟨h1, h2⟩
    refine Nat.mul_pos h1 ?_
    rcases h2 with h2 | h2 <;> omega

/-- Counterexample to C9 as stated: with `d.before = ["c", "c"]`, the
Configer `d` satisfies one clause yet is returned twice, not once per
satisfied clause. -/
theorem getBeforeConfigers_multiplicity_counterexample :
    (getBeforeConfigers [⟨"d", ["c", "c"], []⟩] ⟨"c", [], []⟩).count ⟨"d", ["c", "c"], []⟩ = 2
    ∧ ¬ ((getBeforeConfigers [⟨"d", ["c", "c"], []⟩] ⟨"c", [], []⟩).count
        ⟨"d", ["c", "c"], []⟩ = 1) := by
  constructor
  · decide
  · decide

/-! ### C1 — property reference resolution in `prepare` -/

lemma resolveProperty_ok_nonref : ∀ (fuel : Nat) (conf : List (String × PVal))
    (key : String) (v rv : PVal) (conf1 : List (String × PVal)),
    resolveProperty fuel conf key v = Except.ok (rv, conf1) → isRefVal v = false →
    rv = v ∧ conf1 = conf := by
  intro fuel conf key v rv conf1 h hv
  match fuel with
  | 0 => cases h
  | fuel + 1 =>
    match v with
    | PVal.num n =>
      simp [resolveProperty] at h
      exact ⟨h.1.symm, h.2.symm⟩
    | PVal.str s =>
      have hs : strStartsWithRef s = false := hv
      simp [resolveProperty, hs] at h
      exact ⟨h.1.symm, h.2.symm⟩

/-- Claim C1 (amended): a string value of the form `"${text}"` is a reference
to the literal key `text` — `:=` defaults are not interpreted during
flattening — so an undefined referenced key (for `"${y}"` the key `y`, and
for `"${y:=7}"` the key `y:=7`) is a fatal error naming that key; a defined
reference resolves transitively through the flattened map, memoizing each
resolved key, and a non-reference value resolves to itself. -/
theorem resolveProperty_reference_resolution :
    (∀ (fuel : Nat) (conf : List (String × PVal)) (key s : String),
      strStartsWithRef s = true → confLookup conf (refKeyOf s) = none →
      resolveProperty (fuel + 1) conf key (PVal.str s)
        = Except.error (ResolveErr.notConfig (refKeyOf s)))
    ∧ (∀ (fuel : Nat) (conf : List (String × PVal)) (key : String) (v : PVal),
      isRefVal v = false →
      resolveProperty (fuel + 1) conf key v = Except.ok (v, conf))
    ∧ (∀ (fuel : Nat) (conf : List (String × PVal)) (key s : String) (w : PVal),
      strStartsWithRef s = true → confLookup conf (refKeyOf s) = some w →
      isRefVal w = false →
      resolveProperty (fuel + 2) conf key (PVal.str s)
        = Except.ok (w, confUpdate conf key w))
    ∧ (∀ (fuel : Nat) (conf : List (String × PVal)) (key s s2 : String) (w : PVal),
      strStartsWithRef s = true → confLookup conf (refKeyOf s) = some (PVal.str s2) →
      strStartsWithRef s2 = true → confLookup conf (refKeyOf s2) = some w →
      isRefVal w = false →
      resolveProperty (fuel + 3) conf key (PVal.str s)
        = Except.ok (w, confUpdate (confUpdate conf (refKeyOf s) w) key w)) := by
  have hnonref : ∀ (fuel : Nat) (conf : List (String × PVal)) (key : String) (v : PVal),
      isRefVal v = false →
      resolveProperty (fuel + 1) conf key v = Except.ok (v, conf) := by
    intro fuel conf key v hv
    match v with
    | PVal.num n => simp [resolveProperty]
    | PVal.str s => simp [resolveProperty, show strStartsWithRef s = false from hv]
  have honelink : ∀ (fuel : Nat) (conf : List (String × PVal)) (key s : String) (w : PVal),
      strStartsWithRef s = true → confLookup conf (refKeyOf s) = some w →
      isRefVal w = false →
      resolveProperty (fuel + 2) conf key (PVal.str s)
        = Except.ok (w, confUpdate conf key w) := by
    intro fuel conf key s w hs hl hw
    cases w with
    | num n => simp [resolveProperty, hs, hl]
    | str sw =>
      have hws : strStartsWithRef sw = false := hw
      simp [resolveProperty, hs, hl, hws]
  refine ⟨?_, hnonref, honelink, ?_⟩
  · intro fuel conf key s hs hl
    simp [resolveProperty, hs, hl]
  · intro fuel conf key s s2 w hs hl hs2 hl2 hw
    cases w with
    | num n => simp [resolveProperty, hs, hl, hs2, hl2]
    | str sw =>
      have hws : strStartsWithRef sw = false := hw
      simp [resolveProperty, hs, hl, hs2, hl2, hws]

/-- Witness for C1 (amended) at concrete inputs: `"${y}"` with no `y` is
fatal naming `y`, and the chain `x -> y -> z -> 5` resolves transitively,
rewriting the whole map to `5`. -/
theorem resolveProperty_reference_witness :
    resolveProperty 7 [("x", PVal.str "${y}")] "x" (PVal.str "${y}")
      = Except.error (ResolveErr.notConfig "y")
    ∧ resolveProperty 9
        [("x", PVal.str "${y}"), ("y", PVal.str "${z}"), ("z", PVal.num 5)]
        "x" (PVal.str "${y}")
      = Except.ok (PVal.num 5,
          [("x", PVal.num 5), ("y", PVal.num 5), ("z", PVal.num 5)]) :=
  ⟨resolveProperty_reference_resolution.1 6 [("x", PVal.str "${y}")] "x" "${y}" rfl rfl,
   resolveProperty_reference_resolution.2.2.2 6
     [("x", PVal.str "${y}"), ("y", PVal.str "${z}"), ("z", PVal.num 5)]
     "x" "${y}" "${z}" (PVal.num 5) rfl rfl rfl rfl rfl⟩

/-- Counterexample to C1 as stated: `x = "${y:=7}"` with no `y` does not
resolve to `7` — the resolver treats the whole text `y:=7` as the referenced
key and aborts fatally because that key is not configured. -/
theorem resolveProperty_default_counterexample :
    resolveProperty 9 [("x", PVal.str "${y:=7}")] "x" (PVal.str "${y:=7}")
      = Except.error (ResolveErr.notConfig "y:=7")
    ∧ prepare ⟨[("x", PVal.str "${y:=7}")], [], [], [], []⟩ true 9
      = Except.error (ResolveErr.notConfig "y:=7") :=
  ⟨rfl, rfl⟩

/-! ### C2 — configuration layer precedence in `prepare` -/

lemma confLookup_cons (k0 : String) (v0 : PVal) (rest : List (String × PVal)) (k : String) :
    confLookup ((k0, v0) :: rest) k = if k0 = k then some v0 else confLookup rest k := by
  by_cases h : k0 = k
  · subst h
    simp [confLookup, List.find?]
  · have hbeq : (k0 == k) = false := by simp [h]
    simp [confLookup, List.find?, h, hbeq]

lemma confLookup_filter_high (high : List (String × PVal)) (k : String)
    (hh : confLookup high k = none) : ∀ low : List (String × PVal),
    confLookup (low.filter fun p => (confLookup high p.1).isNone) k = confLookup low k := by
  intro low
  induction low with
  | nil => rfl
  | cons p rest ih =>
    obtain ⟨k0, v0⟩ := p
    by_cases h : k0 = k
    · subst h
      simp [List.filter_cons, hh, confLookup_cons]
    · cases hp : (confLookup high k0).isNone <;>
        simp [List.filter_cons, hp, confLookup_cons, h, ih]

lemma confLookup_merge (high low : List (String × PVal)) (k : String) :
    confLookup (confMerge high low) k
      = match confLookup high k with
        | some v => some v
        | none => confLookup low k := by
  cases hh : confLookup high k with
  | some v =>
    obtain ⟨p, hf, hp⟩ : ∃ p, high.find? (fun q => q.1 == k) = some p ∧ p.2 = v := by
      cases hf : high.find? (fun q => q.1 == k) with
      | none => simp [confLookup, hf] at hh
      | some p => exact ⟨p, rfl, by simpa [confLookup, hf] using hh⟩
    simp [confMerge, confLookup, List.find?_append, hf, hp]
  | none =>
    have hf : high.find? (fun q => q.1 == k) = none := by
      cases hf : high.find? (fun q => q.1 == k) with
      | none => rfl
      | some p => simp [confLookup, hf] at hh
    have := confLookup_filter_high high k hh low
    simpa [confMerge, confLookup, List.find?_append, hf] using this

lemma confLookup_fill5 (cfg : AppConfigs) (k : String) :
    confLookup (fillLayers cfg
        [CfgLayer.api, CfgLayer.cmdArgs, CfgLayer.sysEnv, CfgLayer.profileCfg, CfgLayer.appCfg]) k
      = layeredFirst cfg k := by
  have happ : confMerge cfg.appCfg [] = cfg.appCfg := by
    simp [confMerge]
  simp only [fillLayers, layerProps, happ, confLookup_merge, layeredFirst]

lemma resolveAll_nonref_lookup (fuel : Nat) : ∀ (entries conf acc conf2 : List (String × PVal)),
    resolveAll fuel conf entries = Except.ok (acc, conf2) →
    ∀ (k : String) (v : PVal), confLookup entries k = some v → isRefVal v = false →
      confLookup acc k = some v := by
  intro entries
  induction entries with
  | nil =>
    intro conf acc conf2 h k v hk _
    simp [resolveAll] at h
    obtain ⟨rfl, -⟩ := h
    simp [confLookup, List.find?] at hk
  | cons e rest ih =>
    intro conf acc conf2 h k v hk hv
    obtain ⟨ke, ve⟩ := e
    rw [resolveAll] at h
    split at h
    · cases h
    · rename_i rv conf1 hr
      split at h
      · cases h
      · rename_i acc1 conf3 ha
        cases h
        by_cases hke : ke = k
        · subst hke
          rw [confLookup_cons, if_pos rfl] at hk
          cases hk
          obtain ⟨hrv, -⟩ := resolveProperty_ok_nonref fuel conf ke v rv conf1 hr hv
          rw [confLookup_cons, if_pos rfl, hrv]
        · rw [confLookup_cons, if_neg hke] at hk
          rw [confLookup_cons, if_neg hke]
          exact ih conf1 _ _ ha k v hk hv

/-- Claim C2: `prepare` assembles the configuration layers in the priority
order code-set > command-line arguments > environment variables >
profile-specific file > default file (highest first); for every key defined
in several layers the flattened map — and, for non-reference values, the
property list exposed on the context — carries the value of the
highest-priority layer defining it. -/
theorem prepare_layer_precedence :
    prepareLayers true
      = [CfgLayer.api, CfgLayer.cmdArgs, CfgLayer.sysEnv, CfgLayer.profileCfg, CfgLayer.appCfg]
    ∧ (∀ (cfg : AppConfigs) (k : String),
        confLookup (fillLayers cfg (prepareLayers true)) k = layeredFirst cfg k)
    ∧ (∀ (cfg : AppConfigs) (fuel : Nat) (k : String) (v : PVal)
        (exposed : List (String × PVal)),
        layeredFirst cfg k = some v → isRefVal v = false →
        prepare cfg true fuel = Except.ok exposed →
        confLookup exposed k = some v) := by
  have horder : prepareLayers true
      = [CfgLayer.api, CfgLayer.cmdArgs, CfgLayer.sysEnv, CfgLayer.profileCfg, CfgLayer.appCfg] :=
    rfl
  refine ⟨horder, ?_, ?_⟩
  · intro cfg k
    rw [horder]
    exact confLookup_fill5 cfg k
  · intro cfg fuel k v exposed hwin hv hp
    rw [prepare] at hp
    cases ha : resolveAll fuel (fillLayers cfg (prepareLayers true))
        (fillLayers cfg (prepareLayers true)) with
    | error e0 => rw [ha] at hp; cases hp
    | ok pr =>
      obtain ⟨acc, conf2⟩ := pr
      rw [ha] at hp
      cases hp
      have hflat : confLookup (fillLayers cfg (prepareLayers true)) k = some v := by
        rw [horder, confLookup_fill5 cfg k]; exact hwin
      exact resolveAll_nonref_lookup fuel _ _ _ _ ha k v hflat hv

/-! ### C6 — parent gating of method/child beans -/

lemma decideDefsGo_length {C : Type} (evalCond : C → Bool) :
    ∀ (defs : List (MBeanDef C)) (acc : List (MBeanDef C × Bool)),
      (decideDefsGo evalCond acc defs).length = acc.length + defs.length := by
  intro defs
  induction defs with
  | nil => intro acc; simp [decideDefsGo]
  | cons d rest ih =>
    intro acc
    rw [decideDefsGo, ih]
    simp
    omega

lemma decideDefsGo_get_lt {C : Type} (evalCond : C → Bool) :
    ∀ (defs : List (MBeanDef C)) (acc : List (MBeanDef C × Bool)) (k : Nat),
      k < acc.length → (decideDefsGo evalCond acc defs).get? k = acc.get? k := by
  intro defs
  induction defs with
  | nil => intro acc k _; rfl
  | cons d rest ih =>
    intro acc k hk
    rw [decideDefsGo, ih (acc ++ [(d, condOK evalCond d && parentOK acc d)]) k
      (by simp; omega)]
    exact List.get?_append hk

lemma decideDefs_get {C : Type} (evalCond : C → Bool) :
    ∀ (defs : List (MBeanDef C)) (acc : List (MBeanDef C × Bool)) (k : Nat) (dk : MBeanDef C),
      defs.get? k = some dk →
      (decideDefsGo evalCond acc defs).get? (acc.length + k)
        = some (dk, condOK evalCond dk
            && parentOK (decideDefsGo evalCond acc (defs.take k)) dk) := by
  intro defs
  induction defs with
  | nil => intro acc k dk hk; cases hk
  | cons d rest ih =>
    intro acc k dk hk
    cases k with
    | zero =>
      have hdk : d = dk := by
        have := hk
        simp [List.get?] at this
        exact this
      subst hdk
      rw [decideDefsGo]
      have h1 : (decideDefsGo evalCond
          (acc ++ [(d, condOK evalCond d && parentOK acc d)]) rest).get? acc.length
          = (acc ++ [(d, condOK evalCond d && parentOK acc d)]).get? acc.length := by
        refine decideDefsGo_get_lt evalCond rest _ acc.length ?_
        simp
      rw [Nat.add_zero, h1, List.get?_concat_length]
      rfl
    | succ k0 =>
      have hrest : rest.get? k0 = some dk := hk
      rw [decideDefsGo]
      have harith : acc.length + (k0 + 1)
          = (acc ++ [(d, condOK evalCond d && parentOK acc d)]).length + k0 := by
        simp
        omega
      rw [harith, ih (acc ++ [(d, condOK evalCond d && parentOK acc d)]) k0 dk hrest]
      rfl

/-- Claim C6: when a parent definition's own condition evaluates false, the
parent is excluded and every method/child bean pointing at it is excluded as
well — even a child with no condition of its own — and `GetBean` returns
false for any type whose only candidates are the parent and the child. -/
theorem method_bean_parent_gating {C : Type} (evalCond : C → Bool)
    (defs : List (MBeanDef C)) (i j : Nat) (p ch : MBeanDef C) (c : C)
    (hij : i < j) (hi : defs.get? i = some p) (hj : defs.get? j = some ch)
    (hpcond : p.cond = some c) (hpc : evalCond c = false)
    (hpar : ch.parentIdx = some i) :
    (decideDefs evalCond defs).get? i = some (p, false)
    ∧ (decideDefs evalCond defs).get? j = some (ch, false)
    ∧ (∀ typ : String,
        (∀ (k : Nat) (q : MBeanDef C), defs.get? k = some q → q.typ = typ → k = i ∨ k = j) →
        getBeanFound (decideDefs evalCond defs) typ = false) := by
  have hpflag : condOK evalCond p = false := by
    simp [condOK, hpcond, hpc]
  have hparent : (decideDefs evalCond defs).get? i = some (p, false) := by
    have := decideDefs_get evalCond defs [] i p hi
    simpa [decideDefs, hpflag] using this
  have hchild : (decideDefs evalCond defs).get? j = some (ch, false) := by
    have hmain := decideDefs_get evalCond defs [] j ch hj
    have hprefix : (decideDefsGo evalCond [] (defs.take j)).get? i = some (p, false) := by
      have htk : (defs.take j).get? i = some p := by
        rw [List.get?_take hij]; exact hi
      have := decideDefs_get evalCond (defs.take j) [] i p htk
      simpa [hpflag] using this
    have hpo : parentOK (decideDefsGo evalCond [] (defs.take j)) ch = false := by
      rw [List.get?_eq_getElem?] at hprefix
      simp [parentOK, hpar, hprefix]
    simpa [decideDefs, hpo] using hmain
  refine ⟨hparent, hchild, ?_⟩
  intro typ htyp
  have hzero : (decideDefs evalCond defs).countP (fun q => q.2 && q.1.typ == typ) = 0 := by
    rw [List.countP_eq_zero]
    intro q hq hcontra
    obtain ⟨k, hk⟩ := List.mem_iff_get?.mp hq
    have hklen : k < (decideDefs evalCond defs).length := by
      rcases List.get?_eq_some.mp hk with ⟨h, -⟩
      exact h
    have hkdefs : k < defs.length := by
      have hlen := decideDefsGo_length evalCond defs ([] : List (MBeanDef C × Bool))
      have hklen2 : k < (decideDefsGo evalCond [] defs).length := hklen
      rw [hlen] at hklen2
      simpa using hklen2
    obtain ⟨dk, hdk⟩ : ∃ dk, defs.get? k = some dk := by
      rcases List.get?_eq_some.mpr ⟨hkdefs, rfl⟩ with h
      exact ⟨defs.get ⟨k, hkdefs⟩, h⟩
    have hqk := decideDefs_get evalCond defs [] k dk hdk
    simp only [List.length_nil, Nat.zero_add] at hqk
    have hqk2 : (decideDefs evalCond defs).get? k
        = some (dk, condOK evalCond dk
            && parentOK (decideDefsGo evalCond [] (defs.take k)) dk) := hqk
    rw [hqk2] at hk
    cases hk
    simp only [Bool.and_eq_true, beq_iff_eq] at hcontra
    obtain ⟨hflag, htq⟩ := hcontra
    rcases htyp k dk hdk htq with rfl | rfl
    · rw [hparent] at hqk2
      simp only [Option.some.injEq, Prod.mk.injEq] at hqk2
      obtain ⟨-, hflagfalse⟩ := hqk2
      rw [hflag.1, hflag.2] at hflagfalse
      simp at hflagfalse
    · rw [hchild] at hqk2
      simp only [Option.some.injEq, Prod.mk.injEq] at hqk2
      obtain ⟨-, hflagfalse⟩ := hqk2
      rw [hflag.1, hflag.2] at hflagfalse
      simp at hflagfalse
  simp [getBeanFound, hzero]

/-- Witness for C6, mirroring `TestDefaultSpringContext_ParentNotRegister`:
a parent with a false condition and an unconditional child bean are both
excluded and unfindable by type. -/
theorem method_bean_parent_gating_witness :
    (decideDefs (fun _ : Unit => false)
        [⟨"newServerInterface", "ServerInterface", some (), none⟩,
         ⟨"Consumer", "*Consumer", none, some 0⟩]).get? 0
      = some (⟨"newServerInterface", "ServerInterface", some (), none⟩, false)
    ∧ (decideDefs (fun _ : Unit => false)
        [⟨"newServerInterface", "ServerInterface", some (), none⟩,
         ⟨"Consumer", "*Consumer", none, some 0⟩]).get? 1
      = some (⟨"Consumer", "*Consumer", none, some 0⟩, false)
    ∧ getBeanFound (decideDefs (fun _ : Unit => false)
        [⟨"newServerInterface", "ServerInterface", some (), none⟩,
         ⟨"Consumer", "*Consumer", none, some 0⟩]) "ServerInterface" = false
    ∧ getBeanFound (decideDefs (fun _ : Unit => false)
        [⟨"newServerInterface", "ServerInterface", some (), none⟩,
         ⟨"Consumer", "*Consumer", none, some 0⟩]) "*Consumer" = false := by
  have h := method_bean_parent_gating (fun _ : Unit => false)
    [⟨"newServerInterface", "ServerInterface", some (), none⟩,
     ⟨"Consumer", "*Consumer", none, some 0⟩]
    0 1 ⟨"newServerInterface", "ServerInterface", some (), none⟩
    ⟨"Consumer", "*Consumer", none, some 0⟩ ()
    (by decide) rfl rfl rfl rfl rfl
  refine ⟨h.1, h.2.1, h.2.2 "ServerInterface" ?_, h.2.2 "*Consumer" ?_⟩
  · intro k q hk _
    match k, hk with
    | 0, _ => exact Or.inl rfl
    | 1, _ => exact Or.inr rfl
  · intro k q hk _
    match k, hk with
    | 0, _ => exact Or.inl rfl
    | 1, _ => exact Or.inr rfl

/-! ### C8 — `Invoke` ordering guard -/

/-- Claim C8: calling `Invoke` before `AutoWireBeans` has completed fails
fatally with the message "should call after AutoWireBeans"; after
`AutoWireBeans` the same call succeeds, binding the parameters with the same
argument binder (`NewFnStringBindingArg`) used for bean constructors. -/
theorem invoke_requires_autowire (ctx : InvokeCtx) (fnType : FnType) (tags : List String) :
    (ctx.autoWired = false →
      Invoke ctx fnType tags = Except.error InvokeErr.notAutoWired
      ∧ InvokeErr.message InvokeErr.notAutoWired = "should call after AutoWireBeans")
    ∧ (ctx.autoWired = true →
      ∀ r : List (List String), NewFnStringBindingArg fnType false tags = Except.ok r →
        Invoke ctx fnType tags = Except.ok r) := by
  constructor
  · intro h
    exact ⟨by simp [Invoke, h], rfl⟩
  · intro h r hr
    simp [Invoke, h, hr]

/-- Witness for C8, mirroring `TestRunner_Run`: binding `func(i *int, version
string)` with the tag `"1:${version}"` fails before wiring and succeeds after,
with the tag payload bound to parameter 1. -/
theorem invoke_requires_autowire_witness :
    Invoke ⟨false⟩ ⟨2, false⟩ ["1:${version}"] = Except.error InvokeErr.notAutoWired
    ∧ Invoke ⟨true⟩ ⟨2, false⟩ ["1:${version}"] = Except.ok [[], ["${version}"]] :=
  ⟨((invoke_requires_autowire ⟨false⟩ ⟨2, false⟩ ["1:${version}"]).1 rfl).1,
   (invoke_requires_autowire ⟨true⟩ ⟨2, false⟩ ["1:${version}"]).2 rfl [[], ["${version}"]] rfl⟩

/-- Witness for C2 at a concrete input: a key defined in all five layers is
exposed with the code-set layer's value. -/
theorem prepare_layer_precedence_witness :
    layeredFirst ⟨[("k", PVal.num 1)], [("k", PVal.num 2)], [("k", PVal.num 3)],
        [("k", PVal.num 4)], [("k", PVal.num 5)]⟩ "k" = some (PVal.num 1)
    ∧ isRefVal (PVal.num 1) = false
    ∧ prepare ⟨[("k", PVal.num 1)], [("k", PVal.num 2)], [("k", PVal.num 3)],
        [("k", PVal.num 4)], [("k", PVal.num 5)]⟩ true 1 = Except.ok [("k", PVal.num 1)]
    ∧ confLookup [("k", PVal.num 1)] "k" = some (PVal.num 1) :=
  ⟨rfl, rfl, rfl,
    prepare_layer_precedence.2.2
      ⟨[("k", PVal.num 1)], [("k", PVal.num 2)], [("k", PVal.num 3)],
        [("k", PVal.num 4)], [("k", PVal.num 5)]⟩
      1 "k" (PVal.num 1) [("k", PVal.num 1)] rfl rfl rfl⟩

/-! ### C3 / C10 — `NewFnStringBindingArg` tag handling -/

lemma lget_nil (n : Nat) : lget [] n = [] := rfl

lemma lget_cons_zero (x : List String) (xs : List (List String)) : lget (x :: xs) 0 = x := rfl

lemma lget_cons_succ (x : List String) (xs : List (List String)) (n : Nat) :
    lget (x :: xs) (n + 1) = lget xs n := rfl

lemma lget_set_self : ∀ (l : List (List String)) (j : Nat) (v : List String),
    j < l.length → lget (l.set j v) j = v := by
  intro l
  induction l with
  | nil => intro j v h; exact absurd h (by simp)
  | cons x xs ih =>
    intro j v h
    cases j with
    | zero => rfl
    | succ j0 =>
      show lget (xs.set j0 v) j0 = v
      exact ih j0 v (by simpa using h)

lemma lget_set_ne : ∀ (l : List (List String)) (j k : Nat) (v : List String),
    j ≠ k → lget (l.set j v) k = lget l k := by
  intro l
  induction l with
  | nil => intro j k v _; rfl
  | cons x xs ih =>
    intro j k v hjk
    cases j with
    | zero =>
      cases k with
      | zero => exact absurd rfl hjk
      | succ k0 => rfl
    | succ j0 =>
      cases k with
      | zero => rfl
      | succ k0 =>
        show lget (xs.set j0 v) k0 = lget xs k0
        exact ih j0 k0 v (fun h => hjk (by rw [h]))

lemma lget_replicate (numIn j : Nat) : lget (List.replicate numIn ([] : List String)) j = [] := by
  induction numIn generalizing j with
  | zero => rfl
  | succ n ih =>
    cases j with
    | zero => rfl
    | succ j0 => exact ih j0

lemma payloadsAt_cons (j : Nat) (t : String) (rest : List String) :
    payloadsAt j (t :: rest)
      = (match parseTag t with
          | some (i, p) => if i = (j : Int) then [p] else []
          | none => []) ++ payloadsAt j rest := by
  rw [payloadsAt, List.filterMap_cons]
  cases hpt : parseTag t with
  | none => simp [payloadsAt]
  | some ip =>
    obtain ⟨i, p⟩ := ip
    by_cases hij : i = (j : Int) <;> simp [hij, payloadsAt]

lemma countAt_cons_self {t : String} {i : Int} {p : String} (j : Nat) (rest : List String)
    (hpt : parseTag t = some (i, p)) (hij : i = (j : Int)) :
    countAt j (t :: rest) = countAt j rest + 1 := by
  rw [countAt, payloadsAt_cons, hpt]
  simp [hij, countAt, Nat.add_comm]

lemma countAt_cons_other {t : String} {i : Int} {p : String} (j : Nat) (rest : List String)
    (hpt : parseTag t = some (i, p)) (hij : ¬ i = (j : Int)) :
    countAt j (t :: rest) = countAt j rest := by
  rw [countAt, payloadsAt_cons, hpt]
  simp [hij, countAt]

lemma countAt_cons_none {t : String} (j : Nat) (rest : List String)
    (hpt : parseTag t = none) : countAt j (t :: rest) = countAt j rest := by
  rw [countAt, payloadsAt_cons, hpt]
  simp [countAt]

lemma parseTag_ne_empty (t : String) (h : (parseTag t).isSome) : (t == "") = false := by
  cases hb : (t == "") with
  | false => rfl
  | true =>
    have ht : t = "" := by simpa using hb
    subst ht
    have : parseTag "" = none := rfl
    rw [this] at h
    simp at h

lemma step_no_dup (numIn : Nat) (variadic : Bool) (acc : List (List String))
    (t : String) (rest : List String) (i : Int) (p : String)
    (hpt : parseTag t = some (i, p)) (hi0 : 0 ≤ i) (hin : i < (numIn : Int))
    (hlen : acc.length = numIn)
    (hfit : CountsFit numIn variadic acc (t :: rest)) :
    ¬(1 < (lget (acc.set i.toNat (lget acc i.toNat ++ [p])) i.toNat).length
      ∧ (variadic = false ∨ i.toNat < numIn - 1)) := by
  have hij : i = ((i.toNat : Nat) : Int) := by omega
  have hset : lget (acc.set i.toNat (lget acc i.toNat ++ [p])) i.toNat
      = lget acc i.toNat ++ [p] := lget_set_self acc i.toNat _ (by omega)
  rintro ⟨hlong, hres⟩
  rw [hset] at hlong
  simp at hlong
  have hc : 1 ≤ countAt i.toNat (t :: rest) := by
    rw [countAt_cons_self i.toNat rest hpt hij]
    omega
  have h2 := hfit i.toNat (by omega) hres hc
  rw [countAt_cons_self i.toNat rest hpt hij] at h2
  omega

lemma step_countsFit (numIn : Nat) (variadic : Bool) (acc : List (List String))
    (t : String) (rest : List String) (i : Int) (p : String)
    (hpt : parseTag t = some (i, p)) (hi0 : 0 ≤ i) (hin : i < (numIn : Int))
    (hlen : acc.length = numIn)
    (hfit : CountsFit numIn variadic acc (t :: rest)) :
    CountsFit numIn variadic (acc.set i.toNat (lget acc i.toNat ++ [p])) rest := by
  have hij : i = ((i.toNat : Nat) : Int) := by omega
  intro j hj hres hc
  by_cases hjj : i.toNat = j
  · subst hjj
    have hcc : 1 ≤ countAt i.toNat (t :: rest) := by
      rw [countAt_cons_self i.toNat rest hpt hij]
      omega
    have h2 := hfit i.toNat hj hres hcc
    rw [countAt_cons_self i.toNat rest hpt hij] at h2
    omega
  · rw [lget_set_ne acc i.toNat j _ hjj]
    have hcc : 1 ≤ countAt j (t :: rest) := by
      rw [countAt_cons_other j rest hpt (by omega)]
      exact hc
    have h2 := hfit j hj hres hcc
    rw [countAt_cons_other j rest hpt (by omega)] at h2
    exact h2

lemma goIndexed_ok (numIn : Nat) (variadic : Bool) :
    ∀ (tags : List String) (acc : List (List String)), acc.length = numIn →
      AllGoodTags numIn tags → CountsFit numIn variadic acc tags →
      ∃ r, goIndexed numIn variadic acc tags = Except.ok r := by
  intro tags
  induction tags with
  | nil => intro acc _ _ _; exact ⟨acc, rfl⟩
  | cons t rest ih =>
    intro acc hlen hgood hfit
    obtain ⟨i, p, hpt, hi0, hin⟩ := hgood t (by simp)
    obtain ⟨r, hr⟩ := ih (acc.set i.toNat (lget acc i.toNat ++ [p]))
      (by rw [List.length_set]; exact hlen)
      (fun u hu => hgood u (by simp [hu]))
      (step_countsFit numIn variadic acc t rest i p hpt hi0 hin hlen hfit)
    refine ⟨r, ?_⟩
    simp only [goIndexed, hpt]
    rw [if_neg (by omega),
      if_neg (step_no_dup numIn variadic acc t rest i p hpt hi0 hin hlen hfit)]
    exact hr

lemma goIndexed_ok_inv (numIn : Nat) (variadic : Bool) :
    ∀ (tags : List String) (acc r : List (List String)), acc.length = numIn →
      goIndexed numIn variadic acc tags = Except.ok r →
      AllGoodTags numIn tags ∧ CountsFit numIn variadic acc tags := by
  intro tags
  induction tags with
  | nil =>
    intro acc r _ _
    refine ⟨fun t ht => absurd ht (by simp), fun j _ _ hc => ?_⟩
    simp [countAt, payloadsAt] at hc
  | cons t rest ih =>
    intro acc r hlen h
    simp only [goIndexed] at h
    cases hpt : parseTag t with
    | none => simp only [hpt] at h; cases h
    | some ip =>
      obtain ⟨i, p⟩ := ip
      simp only [hpt] at h
      by_cases hrange : i < 0 ∨ (numIn : Int) ≤ i
      · rw [if_pos hrange] at h; cases h
      · rw [if_neg hrange] at h
        have hi0 : 0 ≤ i := by omega
        have hin : i < (numIn : Int) := by omega
        have hij : i = ((i.toNat : Nat) : Int) := by omega
        by_cases hdup : 1 < (lget (acc.set i.toNat (lget acc i.toNat ++ [p])) i.toNat).length
            ∧ (variadic = false ∨ i.toNat < numIn - 1)
        · rw [if_pos hdup] at h; cases h
        · rw [if_neg hdup] at h
          obtain ⟨hgr, hfr⟩ := ih _ r (by rw [List.length_set]; exact hlen) h
          have hset : lget (acc.set i.toNat (lget acc i.toNat ++ [p])) i.toNat
              = lget acc i.toNat ++ [p] := lget_set_self acc i.toNat _ (by omega)
          constructor
          · intro u hu
            rcases List.mem_cons.mp hu with rfl | hmem
            · exact ⟨i, p, hpt, hi0, hin⟩
            · exact hgr u hmem
          · intro j hj hres hc
            by_cases hjj : i.toNat = j
            · subst hjj
              rw [countAt_cons_self i.toNat rest hpt hij]
              have hlen0 : (lget acc i.toNat).length = 0 := by
                by_contra hne
                apply hdup
                refine ⟨?_, hres⟩
                rw [hset]
                simp
                omega
              have hcr : countAt i.toNat rest = 0 := by
                by_contra hne
                have h2 := hfr i.toNat hj hres (by omega)
                rw [hset] at h2
                simp at h2
                omega
              omega
            · rw [countAt_cons_other j rest hpt (by omega)] at hc ⊢
              have h2 := hfr j hj hres hc
              rw [lget_set_ne acc i.toNat j _ hjj] at h2
              exact h2

lemma goIndexed_val (numIn : Nat) (variadic : Bool) :
    ∀ (tags : List String) (acc r : List (List String)), acc.length = numIn →
      goIndexed numIn variadic acc tags = Except.ok r →
      ∀ j : Nat, lget r j = lget acc j ++ payloadsAt j tags := by
  intro tags
  induction tags with
  | nil =>
    intro acc r _ h j
    cases h
    simp [payloadsAt]
  | cons t rest ih =>
    intro acc r hlen h j
    simp only [goIndexed] at h
    cases hpt : parseTag t with
    | none => simp only [hpt] at h; cases h
    | some ip =>
      obtain ⟨i, p⟩ := ip
      simp only [hpt] at h
      by_cases hrange : i < 0 ∨ (numIn : Int) ≤ i
      · rw [if_pos hrange] at h; cases h
      · rw [if_neg hrange] at h
        have hi0 : 0 ≤ i := by omega
        by_cases hdup : 1 < (lget (acc.set i.toNat (lget acc i.toNat ++ [p])) i.toNat).length
            ∧ (variadic = false ∨ i.toNat < numIn - 1)
        · rw [if_pos hdup] at h; cases h
        · rw [if_neg hdup] at h
          have ihj := ih _ r (by rw [List.length_set]; exact hlen) h j
          simp only [payloadsAt_cons, hpt]
          by_cases hjj : i = (j : Int)
          · have hj0 : i.toNat = j := by omega
            have hset : lget (acc.set i.toNat (lget acc i.toNat ++ [p])) j
                = lget acc j ++ [p] := by
              rw [← hj0]
              exact lget_set_self acc i.toNat _ (by omega)
            rw [ihj, hset]
            simp [hjj, List.append_assoc]
          · have hset : lget (acc.set i.toNat (lget acc i.toNat ++ [p])) j = lget acc j :=
              lget_set_ne acc i.toNat j _ (by omega)
            rw [ihj, hset]
            simp [hjj]

lemma goIndexed_first_bad (numIn : Nat) (variadic : Bool) :
    ∀ (tags : List String) (acc : List (List String)) (t0 : String),
      acc.length = numIn →
      (∀ t ∈ tags, ∀ i p, parseTag t = some (i, p) → 0 ≤ i ∧ i < (numIn : Int)) →
      CountsFit numIn variadic acc tags →
      tags.find? (fun t => !(isIndexedTag t)) = some t0 →
      goIndexed numIn variadic acc tags = Except.error (BindErr.shouldHaveIndex t0) := by
  intro tags
  induction tags with
  | nil => intro acc t0 _ _ _ hf; cases hf
  | cons t rest ih =>
    intro acc t0 hlen hgood hfit hf
    cases hpt : parseTag t with
    | none =>
      have hidx : isIndexedTag t = false := by simp [isIndexedTag, hpt]
      rw [List.find?_cons_of_pos rest (by simp [hidx])] at hf
      cases hf
      simp only [goIndexed, hpt]
    | some ip =>
      obtain ⟨i, p⟩ := ip
      have hidx : isIndexedTag t = true := by simp [isIndexedTag, hpt]
      have hf2 : rest.find? (fun u => !(isIndexedTag u)) = some t0 := by
        rwa [List.find?_cons_of_neg rest (by simp [hidx])] at hf
      obtain ⟨hi0, hin⟩ := hgood t (by simp) i p hpt
      have hrec := ih (acc.set i.toNat (lget acc i.toNat ++ [p])) t0
        (by rw [List.length_set]; exact hlen)
        (fun u hu => hgood u (by simp [hu]))
        (step_countsFit numIn variadic acc t rest i p hpt hi0 hin hlen hfit)
        hf2
      simp only [goIndexed, hpt]
      rw [if_neg (by omega),
        if_neg (step_no_dup numIn variadic acc t rest i p hpt hi0 hin hlen hfit)]
      exact hrec

lemma goUnindexed_ok (numIn : Nat) (variadic : Bool) :
    ∀ (tags : List String) (acc : List (List String)) (i : Nat),
      (∀ t ∈ tags, isIndexedTag t = false) →
      (i + tags.length ≤ numIn ∨ (variadic = true ∧ 1 ≤ numIn)) →
      ∃ r, goUnindexed numIn variadic acc i tags = Except.ok r := by
  intro tags
  induction tags with
  | nil => intro acc i _ _; exact ⟨acc, rfl⟩
  | cons t rest ih =>
    intro acc i hall hpos
    have hidx : isIndexedTag t = false := hall t (by simp)
    have hallr : ∀ u ∈ rest, isIndexedTag u = false := fun u hu => hall u (by simp [hu])
    simp only [goUnindexed]
    rw [if_neg (by simp [hidx])]
    by_cases hv : variadic = true ∧ numIn ≤ i + 1
    · rw [if_pos hv]
      have hn0 : ¬ numIn = 0 := by
        rcases hpos with h | h
        · simp at h
          omega
        · omega
      rw [if_neg hn0]
      refine ih _ (i + 1) hallr ?_
      rcases hpos with h | h
      · left
        simp at h ⊢
        omega
      · right
        exact h
    · rw [if_neg hv]
      have hilt : i < numIn := by
        rcases hpos with h | h
        · simp at h
          omega
        · rcases Nat.lt_or_ge i numIn with h2 | h2
          · exact h2
          · exact absurd ⟨h.1, by omega⟩ hv
      rw [if_pos hilt]
      refine ih _ (i + 1) hallr ?_
      rcases hpos with h | h
      · left
        simp at h ⊢
        omega
      · right
        exact h

lemma goUnindexed_first_indexed (numIn : Nat) (variadic : Bool) :
    ∀ (tags : List String) (acc : List (List String)) (i : Nat) (t0 : String),
      (i + tags.length ≤ numIn ∨ (variadic = true ∧ 1 ≤ numIn)) →
      tags.find? isIndexedTag = some t0 →
      goUnindexed numIn variadic acc i tags
        = Except.error (BindErr.shouldntHaveIndex t0) := by
  intro tags
  induction tags with
  | nil => intro acc i t0 _ hf; cases hf
  | cons t rest ih =>
    intro acc i t0 hpos hf
    cases hidx : isIndexedTag t with
    | true =>
      rw [List.find?_cons_of_pos rest hidx] at hf
      cases hf
      simp only [goUnindexed]
      rw [if_pos hidx]
    | false =>
      have hf2 : rest.find? isIndexedTag = some t0 := by
        rwa [List.find?_cons_of_neg rest (by simp [hidx])] at hf
      simp only [goUnindexed]
      rw [if_neg (by simp [hidx])]
      by_cases hv : variadic = true ∧ numIn ≤ i + 1
      · rw [if_pos hv]
        have hn0 : ¬ numIn = 0 := by
          rcases hpos with h | h
          · simp at h
            omega
          · omega
        rw [if_neg hn0]
        refine ih _ (i + 1) t0 ?_ hf2
        rcases hpos with h | h
        · left
          simp at h ⊢
          omega
        · right
          exact h
      · rw [if_neg hv]
        have hilt : i < numIn := by
          rcases hpos with h | h
          · simp at h
            omega
          · rcases Nat.lt_or_ge i numIn with h2 | h2
            · exact h2
            · exact absurd ⟨h.1, by omega⟩ hv
        rw [if_pos hilt]
        refine ih _ (i + 1) t0 ?_ hf2
        rcases hpos with h | h
        · left
          simp at h ⊢
          omega
        · right
          exact h

lemma detectIndexed_cons_head (t : String) (rest : List String) :
    detectIndexed (t :: rest) = isIndexedTag t := by
  simp only [detectIndexed]
  cases h : isIndexedTag t with
  | true =>
    have hne := parseTag_ne_empty t (by simpa [isIndexedTag] using h)
    simp [hne]
  | false => simp

lemma newFn_eq_goIndexed (fnType : FnType) (withReceiver : Bool) (t : String)
    (rest : List String) (hidx : isIndexedTag t = true) :
    NewFnStringBindingArg fnType withReceiver (t :: rest)
      = goIndexed (effNumIn fnType withReceiver) fnType.variadic
          (List.replicate (effNumIn fnType withReceiver) []) (t :: rest) := by
  simp only [NewFnStringBindingArg]
  rw [if_pos (by simp), if_pos (by rw [detectIndexed_cons_head, hidx])]

lemma newFn_eq_goUnindexed (fnType : FnType) (withReceiver : Bool) (t : String)
    (rest : List String) (hidx : isIndexedTag t = false) :
    NewFnStringBindingArg fnType withReceiver (t :: rest)
      = goUnindexed (effNumIn fnType withReceiver) fnType.variadic
          (List.replicate (effNumIn fnType withReceiver) []) 0 (t :: rest) := by
  simp only [NewFnStringBindingArg]
  rw [if_pos (by simp), if_neg (by rw [detectIndexed_cons_head, hidx]; simp)]

/-- Claim C10: with a non-empty, uniformly index-prefixed tag list,
`NewFnStringBindingArg` panics iff some tag's index is negative or not less
than the number of bindable parameters, or some index receives more than one
tag while the function is not variadic or the index is not the final
parameter; on success each tag's payload is assigned to the parameter at its
stated index (so out-of-order specification is accepted). -/
theorem newFnStringBindingArg_indexed_spec (fnType : FnType) (withReceiver : Bool)
    (tags : List String) (hne : tags ≠ [])
    (hall : ∀ t ∈ tags, (parseTag t).isSome) :
    ((∃ r, NewFnStringBindingArg fnType withReceiver tags = Except.ok r)
      ↔ ¬(tags.any (tagOutOfRange (effNumIn fnType withReceiver)) = true
          ∨ dupViolation (effNumIn fnType withReceiver) fnType.variadic tags = true))
    ∧ (∀ r, NewFnStringBindingArg fnType withReceiver tags = Except.ok r →
        ∀ j : Nat, lget r j = payloadsAt j tags) := by
  obtain ⟨t, rest, rfl⟩ : ∃ t rest, tags = t :: rest := by
    cases tags with
    | nil => exact absurd rfl hne
    | cons t rest => exact ⟨t, rest, rfl⟩
  have hheadidx : isIndexedTag t = true := by
    have := hall t (by simp)
    simpa [isIndexedTag] using this
  have hunf := newFn_eq_goIndexed fnType withReceiver t rest hheadidx
  constructor
  · rw [hunf]
    constructor
    · rintro ⟨r, hr⟩
      obtain ⟨hgood, hfit⟩ := goIndexed_ok_inv (effNumIn fnType withReceiver)
        fnType.variadic (t :: rest) _ r (by simp) hr
      rintro (hany | hdup)
      · obtain ⟨u, hu, hbad⟩ := List.any_eq_true.mp hany
        obtain ⟨i, p, hpt, hi0, hin⟩ := hgood u hu
        simp only [tagOutOfRange, hpt] at hbad
        simp at hbad
        omega
      · obtain ⟨j, hjr, hjb⟩ := List.any_eq_true.mp hdup
        have hj : j < effNumIn fnType withReceiver := List.mem_range.mp hjr
        simp only [Bool.and_eq_true, Bool.or_eq_true] at hjb
        obtain ⟨hres, hcnt⟩ := hjb
        have hcnt2 : 2 ≤ countAt j (t :: rest) := by simpa using hcnt
        have hres2 : Restricted (effNumIn fnType withReceiver) fnType.variadic j := by
          rcases hres with h1 | h1
          · left
            simpa using h1
          · right
            have hne2 : ¬ (j + 1 == effNumIn fnType withReceiver) = true := by
              simpa using h1
            simp at hne2
            omega
        have := hfit j hj hres2 (by omega)
        rw [lget_replicate] at this
        simp at this
        omega
    · intro hnone
      obtain ⟨hna, hnd⟩ := not_or.mp hnone
      apply goIndexed_ok
      · simp
      · intro u hu
        obtain ⟨⟨i, p⟩, hpt⟩ := Option.isSome_iff_exists.mp (hall u hu)
        have hur : tagOutOfRange (effNumIn fnType withReceiver) u = false := by
          cases hb : tagOutOfRange (effNumIn fnType withReceiver) u with
          | false => rfl
          | true => exact absurd (List.any_eq_true.mpr ⟨u, hu, hb⟩) hna
        simp only [tagOutOfRange, hpt] at hur
        simp at hur
        exact ⟨i, p, hpt, by omega, by omega⟩
      · intro j hj hres hc
        rw [lget_replicate]
        simp
        by_contra hgt
        apply hnd
        rw [dupViolation]
        refine List.any_eq_true.mpr ⟨j, List.mem_range.mpr hj, ?_⟩
        simp only [Bool.and_eq_true, Bool.or_eq_true]
        constructor
        · rcases hres with h1 | h1
          · left
            simp [h1]
          · right
            simp
            omega
        · simp
          omega
  · intro r hr j
    rw [hunf] at hr
    have hv := goIndexed_val (effNumIn fnType withReceiver) fnType.variadic
      (t :: rest) _ r (by simp) hr j
    rw [lget_replicate] at hv
    simpa using hv

/-- Witness for C10 at concrete inputs: out-of-order indexed tags are
accepted and land at their stated indexes; a duplicated index on a
non-variadic function is rejected. -/
theorem newFnStringBindingArg_indexed_witness :
    (∃ r, NewFnStringBindingArg ⟨2, false⟩ false ["1:b", "0:a"] = Except.ok r)
    ∧ (∀ r, NewFnStringBindingArg ⟨2, false⟩ false ["1:b", "0:a"] = Except.ok r →
        lget r 0 = ["a"] ∧ lget r 1 = ["b"])
    ∧ ¬(∃ r, NewFnStringBindingArg ⟨2, false⟩ false ["0:a", "0:b"] = Except.ok r) := by
  have h1 := newFnStringBindingArg_indexed_spec ⟨2, false⟩ false ["1:b", "0:a"]
    (by decide) (by decide)
  have h2 := newFnStringBindingArg_indexed_spec ⟨2, false⟩ false ["0:a", "0:b"]
    (by decide) (by decide)
  refine ⟨h1.1.mpr (by decide), ?_, ?_⟩
  · intro r hr
    exact ⟨h1.2 r hr 0, h1.2 r hr 1⟩
  · intro hok
    exact (h2.1.mp hok) (by decide)

/-- Claim C3: a tag list whose first tag is index-prefixed but that contains
an unprefixed tag fails fatally with a "should have index" error naming that
tag; a list whose first tag is unprefixed but that contains an index-prefixed
tag fails fatally with a "shouldn't have index" error naming that tag; a
uniformly indexed list (with well-formed indexes) and a uniformly unindexed
list (with enough parameters) are both accepted. -/
theorem newFnStringBindingArg_mixed_tags (fnType : FnType) (withReceiver : Bool)
    (tags : List String) :
    ((∀ u ∈ tags, ∀ (i : Int) (p : String), parseTag u = some (i, p)
        → 0 ≤ i ∧ i < (effNumIn fnType withReceiver : Int)) →
      CountsFit (effNumIn fnType withReceiver) fnType.variadic
        (List.replicate (effNumIn fnType withReceiver) []) tags →
      detectIndexed tags = true →
      ∀ t0, tags.find? (fun u => !(isIndexedTag u)) = some t0 →
        NewFnStringBindingArg fnType withReceiver tags
          = Except.error (BindErr.shouldHaveIndex t0))
    ∧ (detectIndexed tags = false →
      (tags.length ≤ effNumIn fnType withReceiver
        ∨ (fnType.variadic = true ∧ 1 ≤ effNumIn fnType withReceiver)) →
      ∀ t0, tags.find? isIndexedTag = some t0 →
        NewFnStringBindingArg fnType withReceiver tags
          = Except.error (BindErr.shouldntHaveIndex t0))
    ∧ (tags ≠ [] → detectIndexed tags = true →
      AllGoodTags (effNumIn fnType withReceiver) tags →
      CountsFit (effNumIn fnType withReceiver) fnType.variadic
        (List.replicate (effNumIn fnType withReceiver) []) tags →
      ∃ r, NewFnStringBindingArg fnType withReceiver tags = Except.ok r)
    ∧ (tags ≠ [] → (∀ u ∈ tags, isIndexedTag u = false) →
      (tags.length ≤ effNumIn fnType withReceiver
        ∨ (fnType.variadic = true ∧ 1 ≤ effNumIn fnType withReceiver)) →
      ∃ r, NewFnStringBindingArg fnType withReceiver tags = Except.ok r) := by
  refine ⟨?_, ?_, ?_, ?_⟩
  · intro hgood hfit hdet t0 hf
    cases tags with
    | nil => cases hf
    | cons t rest =>
      rw [detectIndexed_cons_head] at hdet
      rw [newFn_eq_goIndexed fnType withReceiver t rest hdet]
      exact goIndexed_first_bad (effNumIn fnType withReceiver) fnType.variadic
        (t :: rest) _ t0 (by simp) hgood hfit hf
  · intro hdet hroom t0 hf
    cases tags with
    | nil => cases hf
    | cons t rest =>
      rw [detectIndexed_cons_head] at hdet
      rw [newFn_eq_goUnindexed fnType withReceiver t rest hdet]
      exact goUnindexed_first_indexed (effNumIn fnType withReceiver) fnType.variadic
        (t :: rest) _ 0 t0 (by simpa using hroom) hf
  · intro hne hdet hgood hfit
    cases tags with
    | nil => exact absurd rfl hne
    | cons t rest =>
      rw [detectIndexed_cons_head] at hdet
      rw [newFn_eq_goIndexed fnType withReceiver t rest hdet]
      exact goIndexed_ok (effNumIn fnType withReceiver) fnType.variadic
        (t :: rest) _ (by simp) hgood hfit
  · intro hne hall hroom
    cases tags with
    | nil => exact absurd rfl hne
    | cons t rest =>
      have hidx : isIndexedTag t = false := hall t (by simp)
      rw [newFn_eq_goUnindexed fnType withReceiver t rest hidx]
      exact goUnindexed_ok (effNumIn fnType withReceiver) fnType.variadic
        (t :: rest) _ 0 hall (by simpa using hroom)

/-- Witness for C3 at concrete inputs: the two mixed lists fail with the two
messages, and the two uniform lists are accepted. -/
theorem newFnStringBindingArg_mixed_tags_witness :
    NewFnStringBindingArg ⟨2, false⟩ false ["0:a", "b"]
      = Except.error (BindErr.shouldHaveIndex "b")
    ∧ NewFnStringBindingArg ⟨2, false⟩ false ["a", "0:b"]
      = Except.error (BindErr.shouldntHaveIndex "0:b")
    ∧ (∃ r, NewFnStringBindingArg ⟨2, false⟩ false ["0:a", "1:b"] = Except.ok r)
    ∧ (∃ r, NewFnStringBindingArg ⟨2, false⟩ false ["a", "b"] = Except.ok r) := by
  have h1 := newFnStringBindingArg_mixed_tags ⟨2, false⟩ false ["0:a", "b"]
  have h2 := newFnStringBindingArg_mixed_tags ⟨2, false⟩ false ["a", "0:b"]
  have h3 := newFnStringBindingArg_mixed_tags ⟨2, false⟩ false ["0:a", "1:b"]
  have h4 := newFnStringBindingArg_mixed_tags ⟨2, false⟩ false ["a", "b"]
  refine ⟨?_, ?_, ?_, ?_⟩
  · refine h1.1 ?_ ?_ (by decide) "b" (by decide)
    · intro u hu i p hpt
      simp at hu
      rcases hu with rfl | rfl
      · rw [show parseTag "0:a" = some ((0 : Int), "a") from rfl] at hpt
        cases hpt
        exact ⟨by decide, by decide⟩
      · rw [show parseTag "b" = none from rfl] at hpt
        cases hpt
    · intro j hj hres hc
      have hj2 : j < 2 := hj
      interval_cases j <;> decide
  · exact h2.2.1 (by decide) (Or.inl (by decide)) "0:b" (by decide)
  · refine h3.2.2.1 (by decide) (by decide) ?_ ?_
    · intro u hu
      simp at hu
      rcases hu with rfl | rfl
      · exact ⟨0, "a", rfl, by decide, by decide⟩
      · exact ⟨1, "b", rfl, by decide, by decide⟩
    · intro j hj hres hc
      have hj2 : j < 2 := hj
      interval_cases j <;> decide
  · exact h4.2.2.2 (by decide) (by decide) (Or.inl (by decide))

end GoSpring
